import Mathlib

/-!
# DuplicateFinder (`src/main.cpp`): a shallow embedding

The program enumerates two directory trees, pairs files of equal size and
confirms the pairs by comparing MD5 digests.  The embedding keeps the names of
the source.  State the C++ code mutates through `mutable` fields is passed
explicitly: an operation on an `entry` returns the entry it leaves behind.

The environment is a parameter:

* `FileSystem` gives the answers of `stat`, `open` and `opendir`;
* `MD5 : List u8 → md5` is the digest function of the OpenSSL library.

Where the process has no defined result (a read through an invalid mapping, or
a directory walk that is not given enough fuel) the model returns `none`.
-/

namespace DuplicateFinder

/-! ## Data model -/

/-- An unsigned byte, `using u8 = uint8_t`. -/
abbrev u8 := Fin 256

/-- The signed file offset type of `<sys/types.h>`; the code only compares and
copies such values. -/
abbrev off_t := Int

/-- Length of an MD5 digest, from `<openssl/md5.h>`. -/
def MD5_DIGEST_LENGTH : Nat := 16

/-- The digest holder `struct md5`: `array<u8, MD5_DIGEST_LENGTH> data`. -/
structure md5 where
  data : List u8
  size_eq : data.length = MD5_DIGEST_LENGTH
deriving DecidableEq

namespace md5

/-- The constructor `md5() : data{{0}}`: every byte is zero. -/
def zero : md5 := ⟨List.replicate MD5_DIGEST_LENGTH 0, by simp⟩

/-- The member `operator==`: `data == other.data`, the element-wise comparison
of the two arrays. -/
def eq (a other : md5) : Bool := a.data == other.data

end md5

/-- The system calls the entry operations issue. -/
inductive Syscall where
  | stat (path : String)
  | openRead (path : String)
  | mmap (length : Nat)
  | munmap
  | close
deriving DecidableEq, Repr

/-- File types reported in `dirent::d_type` (`<dirent.h>`). -/
inductive DType where
  | DT_UNKNOWN | DT_FIFO | DT_CHR | DT_DIR | DT_BLK | DT_REG | DT_LNK | DT_SOCK | DT_WHT
deriving DecidableEq, Repr

/-- What `readdir` yields: the fields of `struct dirent` the code reads. -/
structure dirent where
  d_name : String
  d_type : DType
deriving DecidableEq, Repr

/-- The file system as the program observes it.

* `stat path` is `some st_size` when `stat` returns 0, `none` otherwise;
* `openFile path` is `some content` when `open(path, O_RDONLY)` returns a
  descriptor (the bytes readable through it), `none` when it returns `-1`;
* `opendir path` is `some listing` when `opendir` returns a stream (what the
  successive `readdir` calls yield), `none` when it returns `NULL`. -/
structure FileSystem where
  stat : String → Option off_t
  openFile : String → Option (List u8)
  opendir : String → Option (List dirent)

/-- The file descriptor `struct entry`, with its two cached attributes and the
two private flags. -/
structure entry where
  fileName : String
  size : off_t
  md5 : md5
  hasSize : Bool
  hasMd5 : Bool
deriving DecidableEq

namespace entry

/-- The constructor `entry(std::string fileName)`: size 0, zero digest, nothing
cached. -/
def new (fileName : String) : entry :=
  { fileName := fileName, size := 0, md5 := md5.zero, hasSize := false, hasMd5 := false }

end entry

/-! ## `utils::getFileSize` and `entry::getSize` -/

/-- The overload `utils::getFileSize(const std::string&)`:
`rc == 0 ? buf.st_size : -1`, together with the system call it issued. -/
def getFileSize (fs : FileSystem) (fileName : String) : off_t × List Syscall :=
  let rc_size := fs.stat fileName
  (match rc_size with
   | some st_size => st_size
   | none => -1,
   [Syscall.stat fileName])

/-- The member `entry::getSize`: returns the value, the entry as the call
leaves it and the system calls issued. -/
def getSize (fs : FileSystem) (e : entry) : off_t × entry × List Syscall :=
  if !e.hasSize then
    let r := getFileSize fs e.fileName
    let e1 := { e with size := r.1, hasSize := true }
    (e1.size, e1, r.2)
  else
    (e.size, e, [])

/-! ## `utils::computeMD5` and `entry::getMD5` -/

/-- Conversion of an `off_t` to the `size_t` parameter of `mmap` and `MD5`
(64-bit, modular). -/
def to_size_t (x : off_t) : Nat := (x % (2 ^ 64 : Int)).toNat

/-- The call `mmap(0, length, PROT_READ, MAP_SHARED, fd, 0)`: `none` is
`MAP_FAILED` (the descriptor is invalid, or the length is zero); otherwise the
mapping shows the content of the file. -/
def mmap (file : Option (List u8)) (length : Nat) : Option (List u8) :=
  match file with
  | none => none
  | some content => if length = 0 then none else some content

/-- The bytes `MD5(buffer, n, ...)` reads: `n` bytes from `buffer`.  Reading no
byte needs no valid buffer; reading through `MAP_FAILED` or past the end of the
file has no defined result. -/
def readBuffer (buffer : Option (List u8)) (n : Nat) : Option (List u8) :=
  if n = 0 then some []
  else
    match buffer with
    | none => none
    | some content => if n ≤ content.length then some (content.take n) else none

/-- The function `utils::computeMD5`.  Returns the boolean result, the entry as
the call leaves it and the system calls issued; `none` when the read has no
defined result. -/
def computeMD5 (MD5 : List u8 → md5) (fs : FileSystem) (e : entry) :
    Option (Bool × entry × List Syscall) :=
  let file := fs.openFile e.fileName
  let fd : Int := match file with
    | some _ => 3
    | none => -1
  /- failed -/
  if fd < -1 then
    some (false, e, [Syscall.openRead e.fileName])
  else
    let r := getSize fs e
    let size := r.1
    let e1 := r.2.1
    let buffer := mmap file (to_size_t size)
    match readBuffer buffer (to_size_t size) with
    | none => none
    | some bytes =>
      some (true, { e1 with md5 := MD5 bytes },
        [Syscall.openRead e.fileName] ++ r.2.2 ++
          [Syscall.mmap (to_size_t size), Syscall.munmap, Syscall.close])

/-- The member `entry::getMD5`: the result of `computeMD5` is discarded and the
flag is set; the value returned is the entry's digest buffer. -/
def getMD5 (MD5 : List u8 → md5) (fs : FileSystem) (e : entry) :
    Option (md5 × entry × List Syscall) :=
  if !e.hasMd5 then
    match computeMD5 MD5 fs e with
    | none => none
    | some r =>
      let e2 := { r.2.1 with hasMd5 := true }
      some (e2.md5, e2, r.2.2)
  else
    some (e.md5, e, [])

/-! ## `utils::enumerateDirectory` -/

/-- The body of the `while ((dir = readdir(d)) != NULL)` loop of
`utils::enumerateDirectory`, over the entries `readdir` still has to yield;
`recurse` stands for the recursive call
`enumerateDirectory(folder + "/" + name, filter, true, verbose)` and `files`
is the vector collected so far. -/
def readdirLoop (recurse : String → Option (List entry)) (folder : String) (recursive : Bool) :
    List dirent → List entry → Option (List entry)
  | [], files => some files
  | dir :: rest, files =>
    let name := dir.d_name
    if name == "." || name == ".." || name == ".DS_Store" then
      readdirLoop recurse folder recursive rest files
    else if dir.d_type == DType.DT_DIR && recursive then
      match recurse (folder ++ "/" ++ name) with
      | none => none
      | some rfiles => readdirLoop recurse folder recursive rest (files ++ rfiles)
    else if dir.d_type == DType.DT_REG then
      readdirLoop recurse folder recursive rest (files ++ [entry.new (folder ++ "/" ++ name)])
    else
      readdirLoop recurse folder recursive rest files

/-- The function `utils::enumerateDirectory`.  The first argument bounds the
depth of the recursion; `none` means the bound was reached.  The parameter
`filter` is received and handed to the recursive calls and, as in the source,
never applied; `verbose` only controls a line written to `cout`, which the
model leaves out. -/
def enumerateDirectory : Nat → FileSystem → String → (String → Bool) → Bool → Bool →
    Option (List entry)
  | 0, _, _, _, _, _ => none
  | fuel + 1, fs, folder, filter, recursive, verbose =>
    match fs.opendir folder with
    | some listing =>
      readdirLoop (fun sub => enumerateDirectory fuel fs sub filter true verbose)
        folder recursive listing []
    | none => some []

/-! ## `matcher` -/

/-- The pair of references `struct match`: the positions of the referenced
entries in the master and in the slave vector. -/
structure match_ where
  master : Nat
  slave : Nat
deriving DecidableEq, Repr

/-- The inner loop `for (const auto& se : slave)` of
`matcher::findPotentialMatches` for the master entry `me` at position `i`;
`j` is the position of the first slave entry still to visit.  Returns `me`, the
visited slave entries and `matches` as the loop leaves them. -/
def slaveLoop (fs : FileSystem) (i : Nat) :
    entry → Nat → List entry → List match_ → entry × List entry × List match_
  | me, _, [], matches_ => (me, [], matches_)
  | me, j, se :: rest, matches_ =>
    let rm := getSize fs me
    let rs := getSize fs se
    let matches1 := if rm.1 == rs.1 then matches_ ++ [⟨i, j⟩] else matches_
    let r := slaveLoop fs i rm.2.1 (j + 1) rest matches1
    (r.1, rs.2.1 :: r.2.1, r.2.2)

/-- The outer loop `for (const auto& me : master)` of
`matcher::findPotentialMatches`; `i` is the position of the first master entry
still to visit. -/
def masterLoop (fs : FileSystem) :
    Nat → List entry → List entry → List match_ → List entry × List entry × List match_
  | _, [], slave, matches_ => ([], slave, matches_)
  | i, me :: rest, slave, matches_ =>
    let r1 := slaveLoop fs i me 0 slave matches_
    let r2 := masterLoop fs (i + 1) rest r1.2.1 r1.2.2
    (r1.1 :: r2.1, r2.2.1, r2.2.2)

/-- The result of `matcher::findPotentialMatches`, with the two vectors as the
call leaves them (the sizes it cached). -/
structure PotentialMatches where
  matches_ : List match_
  master : List entry
  slave : List entry
deriving DecidableEq

/-- The function `matcher::findPotentialMatches`. -/
def findPotentialMatches (fs : FileSystem) (master slave : List entry) : PotentialMatches :=
  let r := masterLoop fs 0 master slave []
  { matches_ := r.2.2, master := r.1, slave := r.2.1 }

/-- The result of `matcher::verifyMatch`, with the two entries as the call
leaves them. -/
structure Verified where
  result : Bool
  master : entry
  slave : entry
deriving DecidableEq

/-- The function `matcher::verifyMatch` on the two entries the match refers
to: `match.master.getMD5() == match.slave.getMD5()`. -/
def verifyMatch (MD5 : List u8 → md5) (fs : FileSystem) (master slave : entry) :
    Option Verified :=
  match getMD5 MD5 fs master with
  | none => none
  | some rm =>
    match getMD5 MD5 fs slave with
    | none => none
    | some rs =>
      some { result := md5.eq rm.2.1.md5 rs.2.1.md5, master := rm.2.1, slave := rs.2.1 }

/-! ## `main` -/

/-- The local `struct info` of `main`. -/
structure info where
  size : off_t
  count : Nat
deriving DecidableEq, Repr

/-- The two calls of `std::accumulate` in `main`, with the lambda
`++i.count; i.size += e.getSize(); return i;`.  Returns the accumulated value
and the entries as the calls leave them. -/
def accumulate (fs : FileSystem) : List entry → info → info × List entry
  | [], i => (i, [])
  | e :: rest, i =>
    let r := getSize fs e
    let i1 : info := { size := i.size + r.1, count := i.count + 1 }
    let r2 := accumulate fs rest i1
    (r2.1, r.2.1 :: r2.2)

/-- The call `copy_if(potentialMatches.begin(), potentialMatches.end(),
back_inserter(verifiedMatches), ...)` of `main` with the lambda that calls
`matcher::verifyMatch`: each match is resolved to the entries it refers to,
which the call updates in place. -/
def copy_if (MD5 : List u8 → md5) (fs : FileSystem) :
    List match_ → List entry → List entry → List match_ →
      Option (List match_ × List entry × List entry)
  | [], master, slave, verifiedMatches => some (verifiedMatches, master, slave)
  | m :: rest, master, slave, verifiedMatches =>
    match master[m.master]?, slave[m.slave]? with
    | some me, some se =>
      match verifyMatch MD5 fs me se with
      | none => none
      | some v =>
        copy_if MD5 fs rest (master.set m.master v.master) (slave.set m.slave v.slave)
          (if v.result then verifiedMatches ++ [m] else verifiedMatches)
    | _, _ => none

/-- What `main` writes to `cout`, as the values it streams, and the vector
`verifiedMatches` it holds when it returns. -/
structure Report where
  /-- The value `inf.count` in the line `found N files, total size: ...`. -/
  fileCount : Nat
  /-- The value `inf.size` handed to `utils::humanReadableSize`. -/
  totalSize : off_t
  /-- The number streamed in the line `found N potential matches`. -/
  potentialLine : Nat
  /-- The number streamed in the line `found N verified matches`. -/
  verifiedLine : Nat
  /-- The vector `verifiedMatches`, which is not written out. -/
  verifiedMatches : List match_
deriving DecidableEq, Repr

/-- The constant `masterPath` of `main`. -/
def masterPath : String := "/Volumes/Vicky/Photos-SSD"

/-- The constant `slavePath` of `main`. -/
def slavePath : String := "/Volumes/Vicky/-----Photos"

/-- The function `main`; the first argument is the depth bound handed to
`utils::enumerateDirectory`. -/
def main (MD5 : List u8 → md5) (fs : FileSystem) (fuel : Nat) : Option Report :=
  match enumerateDirectory fuel fs masterPath (fun _ => true) true true,
    enumerateDirectory fuel fs slavePath (fun _ => true) true true with
  | some mfiles, some sfiles =>
    let a1 := accumulate fs mfiles { size := 0, count := 0 }
    let a2 := accumulate fs sfiles a1.1
    let inf := a2.1
    let potentialMatches := findPotentialMatches fs a1.2 a2.2
    match copy_if MD5 fs potentialMatches.matches_ potentialMatches.master
        potentialMatches.slave [] with
    | none => none
    | some r =>
      some { fileCount := inf.count,
             totalSize := inf.size,
             potentialLine := potentialMatches.matches_.length,
             verifiedLine := potentialMatches.matches_.length,
             verifiedMatches := r.1 }
  | _, _ => none

/-! ## `operator<<(ostream&, md5)`

The formatting state of a `std::ostream` and the insertion of an `int`, after
the C++ standard library: the parts of `ios_base` that decide how a
non-negative integer is written. -/

/-- The `basefield` group of `ios_base::fmtflags`. -/
inductive Basefield where
  | dec | oct | hex
deriving DecidableEq, Repr

/-- The `adjustfield` group of `ios_base::fmtflags`; `unset` is the state of a
stream nothing was set on, which pads like `right`. -/
inductive Adjustfield where
  | unset | left | right | internal
deriving DecidableEq, Repr

/-- The type `ios::fmtflags`. -/
structure fmtflags where
  basefield : Basefield
  adjustfield : Adjustfield
  uppercase : Bool
  showbase : Bool
  showpos : Bool
deriving DecidableEq, Repr

/-- A `std::ostream`: the characters written so far and the formatting state. -/
structure ostream where
  text : List Char
  flags : fmtflags
  fill : Char
  width : Nat
deriving DecidableEq, Repr

/-- The flags of a stream after `basic_ios::init`: decimal, nothing else set. -/
def defaultFlags : fmtflags :=
  { basefield := Basefield.dec, adjustfield := Adjustfield.unset,
    uppercase := false, showbase := false, showpos := false }

/-- A stream in its default formatting state holding `text`: default flags,
fill character space, width 0. -/
def ostream.init (text : List Char) : ostream :=
  { text := text, flags := defaultFlags, fill := ' ', width := 0 }

/-- The manipulator `hex`. -/
def hex (s : ostream) : ostream := { s with flags := { s.flags with basefield := Basefield.hex } }

/-- The manipulator `setfill(c)`. -/
def setfill (c : Char) (s : ostream) : ostream := { s with fill := c }

/-- The manipulator `setw(n)`. -/
def setw (n : Nat) (s : ostream) : ostream := { s with width := n }

/-- The digits of `v` in the stream's base, lower case unless `uppercase`. -/
def digitsOf (f : fmtflags) (v : Nat) : List Char :=
  let b := match f.basefield with
    | Basefield.dec => 10
    | Basefield.oct => 8
    | Basefield.hex => 16
  let ds := Nat.toDigits b v
  if f.uppercase then ds.map Char.toUpper else ds

/-- The sign or base prefix written before the digits of a non-negative `v`. -/
def prefixOf (f : fmtflags) (v : Nat) : List Char :=
  match f.basefield with
  | Basefield.dec => if f.showpos then ['+'] else []
  | Basefield.oct => if f.showbase && v != 0 then ['0'] else []
  | Basefield.hex =>
    if f.showbase && v != 0 then (if f.uppercase then ['0', 'X'] else ['0', 'x']) else []

/-- The insertion `stream << v` of a non-negative `int`: prefix and digits,
padded with the fill character up to the width, which is then reset to 0. -/
def putInt (s : ostream) (v : Nat) : ostream :=
  let pre := prefixOf s.flags v
  let ds := digitsOf s.flags v
  let pad := List.replicate (s.width - (pre.length + ds.length)) s.fill
  let field := match s.flags.adjustfield with
    | Adjustfield.left => pre ++ ds ++ pad
    | Adjustfield.internal => pre ++ pad ++ ds
    | _ => pad ++ pre ++ ds
  { s with text := s.text ++ field, width := 0 }

/-- The function `operator<<(ostream& stream, md5 val)`; `coutFlags` is
`cout.flags()`, which the function saves first and sets on `stream` at the
end. -/
def shiftLeft (coutFlags : fmtflags) (stream : ostream) (val : md5) : ostream :=
  let f := coutFlags
  let stream1 := (List.range MD5_DIGEST_LENGTH).foldl
    (fun st i => putInt (setw 2 (setfill '0' (hex st))) (val.data.getD i 0).val) stream
  { stream1 with flags := f }

/-! ## Definitions used to state the properties -/

/-- Number of times the pair of two positions belongs among the candidates:
1 when both positions hold an entry and the two report the same size, else 0. -/
def sizeMatch (fs : FileSystem) (me se : Option entry) : Nat :=
  match me, se with
  | some a, some b => if (getSize fs a).1 = (getSize fs b).1 then 1 else 0
  | _, _ => 0

/-- The cached size of `e`, when it has one, is what `stat` answers in `fs`. -/
def sizeCoherent (fs : FileSystem) (e : entry) : Bool :=
  !e.hasSize || decide (e.size = (getFileSize fs e.fileName).1)

/-- A digest function for evaluating the model on concrete inputs: one byte
for the length of the input (plus one, modulo 256), then the first 15 bytes of
the input, padded with zeros.  The theorems hold for every digest function. -/
def sampleDigest (bytes : List u8) : md5 :=
  ⟨((⟨(bytes.length + 1) % 256, by omega⟩ : u8) :: bytes ++
      List.replicate MD5_DIGEST_LENGTH 0).take MD5_DIGEST_LENGTH, by
    simp [MD5_DIGEST_LENGTH]⟩

/-- A file system with one empty file, `empty`, which can be read; every other
path is absent. -/
def vanishedFs : FileSystem :=
  { stat := fun p => if p = "empty" then some 0 else none
    openFile := fun p => if p = "empty" then some [] else none
    opendir := fun _ => none }

/-- A file system with three-byte files `a` and `b` of the same content, a
three-byte file `c` of another content and an empty file `empty`. -/
def smallFs : FileSystem :=
  { stat := fun p =>
      if p = "a" ∨ p = "b" ∨ p = "c" then some 3 else if p = "empty" then some 0 else none
    openFile := fun p =>
      if p = "a" ∨ p = "b" then some [97, 98, 99]
      else if p = "c" then some [120, 121, 122]
      else if p = "empty" then some []
      else none
    opendir := fun _ => none }

/-- The file of `e` can be opened and read as `content`: `open` succeeds and
shows `content`, the size the entry reports is the length of `content`, and
that length fits an `off_t`. -/
def readableAs (fs : FileSystem) (e : entry) (content : List u8) : Bool :=
  decide (fs.openFile e.fileName = some content) &&
    decide ((getSize fs e).1 = (content.length : Int)) &&
    decide (content.length < 2 ^ 63)

/-- The cached digest of `e`, when it has one, is the digest of `content`. -/
def digestCoherent (MD5 : List u8 → md5) (e : entry) (content : List u8) : Bool :=
  !e.hasMd5 || decide (e.md5 = MD5 content)

/-- A file system in which the empty files `locked1` and `locked2` and the
three-byte file `sealed` exist but cannot be opened (`open` returns `-1`), next
to a readable empty file `empty`. -/
def lockedFs : FileSystem :=
  { stat := fun p =>
      if p = "locked1" ∨ p = "locked2" ∨ p = "empty" then some 0
      else if p = "sealed" then some 3
      else none
    openFile := fun p => if p = "empty" then some [] else none
    opendir := fun _ => none }

/-- The scenario of the specification: master holds `A` with content "abc",
slave holds `B` with content "abc" and `C` with content "xyz". -/
def scenarioFs : FileSystem :=
  { stat := fun p =>
      if p = masterPath ++ "/A" ∨ p = slavePath ++ "/B" ∨ p = slavePath ++ "/C" then some 3
      else none
    openFile := fun p =>
      if p = masterPath ++ "/A" ∨ p = slavePath ++ "/B" then some [97, 98, 99]
      else if p = slavePath ++ "/C" then some [120, 121, 122]
      else none
    opendir := fun p =>
      if p = masterPath then
        some [⟨".", DType.DT_DIR⟩, ⟨"..", DType.DT_DIR⟩, ⟨"A", DType.DT_REG⟩]
      else if p = slavePath then
        some [⟨".", DType.DT_DIR⟩, ⟨"..", DType.DT_DIR⟩, ⟨"B", DType.DT_REG⟩,
          ⟨"C", DType.DT_REG⟩]
      else none }

/-- The names `utils::enumerateDirectory` skips whatever their type. -/
def skippedName (name : String) : Bool :=
  name == "." || name == ".." || name == ".DS_Store"

/-- The paths a walk of `folder` is expected to collect, in the words of the
specification: a regular file of the directory whose name is not skipped is
collected under `folder + "/" + name`; when the walk is recursive, what the
walk of a sub-directory whose name is not skipped collects is collected too. -/
inductive Collected (fs : FileSystem) : Bool → String → String → Prop where
  | file (recursive : Bool) (folder : String) (listing : List dirent) (d : dirent) :
      fs.opendir folder = some listing → d ∈ listing → skippedName d.d_name = false →
      d.d_type = DType.DT_REG → Collected fs recursive folder (folder ++ "/" ++ d.d_name)
  | descend (folder : String) (listing : List dirent) (d : dirent) (path : String) :
      fs.opendir folder = some listing → d ∈ listing → skippedName d.d_name = false →
      d.d_type = DType.DT_DIR → Collected fs true (folder ++ "/" ++ d.d_name) path →
      Collected fs true folder path

/-- What one directory entry `d` of `folder` contributes to a walk: `e` is the
fresh entry of `d`, a regular file, or `e` satisfies `P` for the sub-directory
`d` of a recursive walk; nothing when the name of `d` is skipped. -/
def yields (recursive : Bool) (folder : String) (P : String → entry → Prop) (e : entry)
    (d : dirent) : Prop :=
  skippedName d.d_name = false ∧
    ((d.d_type = DType.DT_REG ∧ e = entry.new (folder ++ "/" ++ d.d_name)) ∨
      (d.d_type = DType.DT_DIR ∧ recursive = true ∧ P (folder ++ "/" ++ d.d_name) e))

/-- Every chain of sub-directories below `folder` that a recursive walk would
follow is shorter than the given bound. -/
def withinDepth (fs : FileSystem) : Nat → String → Bool
  | 0, _ => false
  | n + 1, folder =>
    match fs.opendir folder with
    | none => true
    | some listing =>
      listing.all fun d =>
        skippedName d.d_name || d.d_type != DType.DT_DIR ||
          withinDepth fs n (folder ++ "/" ++ d.d_name)

/-- What a walk of `folder` that does not recurse returns: the regular files of
the directory whose name is not skipped, in the order `readdir` yields them. -/
def directChildren (folder : String) (listing : List dirent) : List entry :=
  (listing.filter fun d => !skippedName d.d_name && d.d_type == DType.DT_REG).map
    fun d => entry.new (folder ++ "/" ++ d.d_name)

/-- A directory tree: `root` holds the regular files `a.txt` and `.DS_Store`, a
symbolic link `link`, the directory `sub` and a directory `closed` that cannot
be opened; `root/sub` holds `b.txt` and the directory `deep`, which holds
`c.txt`. -/
def treeFs : FileSystem :=
  { stat := fun _ => none
    openFile := fun _ => none
    opendir := fun p =>
      if p = "root" then
        some [⟨".", DType.DT_DIR⟩, ⟨"..", DType.DT_DIR⟩, ⟨".DS_Store", DType.DT_REG⟩,
          ⟨"a.txt", DType.DT_REG⟩, ⟨"link", DType.DT_LNK⟩, ⟨"sub", DType.DT_DIR⟩,
          ⟨"closed", DType.DT_DIR⟩]
      else if p = "root/sub" then
        some [⟨".", DType.DT_DIR⟩, ⟨"..", DType.DT_DIR⟩, ⟨"b.txt", DType.DT_REG⟩,
          ⟨"deep", DType.DT_DIR⟩]
      else if p = "root/sub/deep" then
        some [⟨".", DType.DT_DIR⟩, ⟨"..", DType.DT_DIR⟩, ⟨"c.txt", DType.DT_REG⟩]
      else none }

/-- The sixteen lower-case hexadecimal digits. -/
def lowerHex : List Char :=
  ['0', '1', '2', '3', '4', '5', '6', '7', '8', '9', 'a', 'b', 'c', 'd', 'e', 'f']

/-- The lower-case hexadecimal digit of a nibble. -/
def hexNibble (n : Nat) : Char := lowerHex.getD n '?'

/-- The two characters expected for a byte: high nibble, then low nibble. -/
def hexPair (b : u8) : List Char := [hexNibble (b.val / 16), hexNibble (b.val % 16)]

/-- The text expected for a digest: the pairs of its bytes in index order. -/
def hexText (val : md5) : List Char := val.data.flatMap hexPair

/-- The part of the formatting state the text of `operator<<(ostream&, md5)`
depends on, as it is in the default state: no `uppercase`, no `showbase`, and
no `left` adjustment. -/
def plainState (s : ostream) : Prop :=
  s.flags.uppercase = false ∧ s.flags.showbase = false ∧
    s.flags.adjustfield ≠ Adjustfield.left

/-- One iteration of the loop of `operator<<(ostream&, md5)`. -/
def putByte (st : ostream) (b : u8) : ostream :=
  putInt (setw 2 (setfill '0' (hex st))) b.val

/-! ## Properties of `entry::getSize` -/

theorem getSize_of_cached (fs : FileSystem) (e : entry) (h : e.hasSize = true) :
    getSize fs e = (e.size, e, []) := by
  simp [getSize, h]

theorem getSize_of_fresh (fs : FileSystem) (e : entry) (h : e.hasSize = false) :
    getSize fs e = ((getFileSize fs e.fileName).1,
      { e with size := (getFileSize fs e.fileName).1, hasSize := true },
      [Syscall.stat e.fileName]) := by
  simp [getSize, h, getFileSize]

theorem getSize_hasSize (fs : FileSystem) (e : entry) : (getSize fs e).2.1.hasSize = true := by
  unfold getSize
  split <;> simp_all

theorem getSize_size (fs : FileSystem) (e : entry) :
    (getSize fs e).2.1.size = (getSize fs e).1 := by
  unfold getSize
  split <;> simp_all

theorem getSize_again (fs fs' : FileSystem) (e : entry) :
    getSize fs' (getSize fs e).2.1 = ((getSize fs e).1, (getSize fs e).2.1, []) := by
  rw [getSize_of_cached fs' _ (getSize_hasSize fs e), getSize_size]

theorem getSize_again_fst (fs fs' : FileSystem) (e : entry) :
    (getSize fs' (getSize fs e).2.1).1 = (getSize fs e).1 := by
  rw [getSize_again]

/-! ## `matcher::findPotentialMatches` -/

theorem sizeMatch_cached_left (fs : FileSystem) (me : entry) (se : Option entry) :
    sizeMatch fs (some (getSize fs me).2.1) se = sizeMatch fs (some me) se := by
  cases se <;> simp [sizeMatch, getSize_again_fst]

theorem sizeMatch_cached_right (fs : FileSystem) (me se : Option entry) :
    sizeMatch fs me (se.map fun s => (getSize fs s).2.1) = sizeMatch fs me se := by
  cases me <;> cases se <;> simp [sizeMatch, getSize_again_fst]

theorem slaveLoop_slave (fs : FileSystem) (i : Nat) (slave : List entry) :
    ∀ (me : entry) (j : Nat) (ms : List match_),
      (slaveLoop fs i me j slave ms).2.1 = slave.map (fun se => (getSize fs se).2.1) := by
  induction slave with
  | nil => intro me j ms; simp [slaveLoop]
  | cons se rest ih => intro me j ms; simp [slaveLoop, ih]

theorem slaveLoop_count_other (fs : FileSystem) (i : Nat) (m : match_) (slave : List entry) :
    ∀ (me : entry) (j : Nat) (ms : List match_), (m.master ≠ i ∨ m.slave < j) →
      (slaveLoop fs i me j slave ms).2.2.count m = ms.count m := by
  induction slave with
  | nil => intro me j ms _; simp [slaveLoop]
  | cons se rest ih =>
    intro me j ms h
    simp only [slaveLoop]
    rw [ih _ _ _ (by omega)]
    split
    · rw [List.count_append]
      have hne : (⟨i, j⟩ : match_) ≠ m := by
        intro hm; subst hm; simp at h
      simp [List.count_cons, hne]
    · rfl

theorem slaveLoop_count (fs : FileSystem) (i : Nat) (slave : List entry) :
    ∀ (me : entry) (j : Nat) (ms : List match_) (k : Nat),
      (slaveLoop fs i me j slave ms).2.2.count ⟨i, j + k⟩ =
        ms.count ⟨i, j + k⟩ + sizeMatch fs (some me) slave[k]? := by
  induction slave with
  | nil => intro me j ms k; simp [slaveLoop, sizeMatch]
  | cons se rest ih =>
    intro me j ms k
    simp only [slaveLoop]
    cases k with
    | zero =>
      rw [slaveLoop_count_other fs i ⟨i, j + 0⟩ rest _ (j + 1) _ (by simp)]
      simp only [Nat.add_zero, List.getElem?_cons_zero, sizeMatch, beq_iff_eq]
      split <;> simp [List.count_append]
    | succ k =>
      have hj : j + (k + 1) = (j + 1) + k := by omega
      rw [hj, ih, List.getElem?_cons_succ, sizeMatch_cached_left]
      congr 1
      split
      · rw [List.count_append]
        have hne : (⟨i, j⟩ : match_) ≠ ⟨i, j + 1 + k⟩ := by
          intro hm; injection hm with _ h2; omega
        simp [List.count_cons, hne]
      · rfl

theorem masterLoop_count_other (fs : FileSystem) (m : match_) (master : List entry) :
    ∀ (i : Nat) (slave : List entry) (ms : List match_), m.master < i →
      (masterLoop fs i master slave ms).2.2.count m = ms.count m := by
  induction master with
  | nil => intro i slave ms _; simp [masterLoop]
  | cons me rest ih =>
    intro i slave ms h
    simp only [masterLoop]
    rw [ih _ _ _ (by omega), slaveLoop_count_other fs i m slave me 0 ms (Or.inl (by omega))]

theorem masterLoop_count (fs : FileSystem) (master : List entry) :
    ∀ (i : Nat) (slave : List entry) (ms : List match_) (k l : Nat),
      (masterLoop fs i master slave ms).2.2.count ⟨i + k, l⟩ =
        ms.count ⟨i + k, l⟩ + sizeMatch fs master[k]? slave[l]? := by
  induction master with
  | nil => intro i slave ms k l; simp [masterLoop, sizeMatch]
  | cons me rest ih =>
    intro i slave ms k l
    simp only [masterLoop]
    cases k with
    | zero =>
      rw [masterLoop_count_other fs ⟨i + 0, l⟩ rest (i + 1) _ _ (by simp)]
      have h := slaveLoop_count fs i slave me 0 ms l
      simp only [Nat.zero_add] at h
      simpa using h
    | succ k =>
      have hi : i + (k + 1) = (i + 1) + k := by omega
      rw [hi, ih, slaveLoop_slave, List.getElem?_map, sizeMatch_cached_right,
        List.getElem?_cons_succ]
      rw [slaveLoop_count_other fs i ⟨i + 1 + k, l⟩ slave me 0 ms (Or.inl (by simp; omega))]

theorem masterLoop_mem (fs : FileSystem) (m : match_) (master : List entry) :
    ∀ (i : Nat) (slave : List entry) (ms : List match_),
      m ∈ (masterLoop fs i master slave ms).2.2 → m ∉ ms →
        i ≤ m.master ∧ m.master < i + master.length ∧ m.slave < slave.length := by
  intro i slave ms hm hms
  have hpos : 0 < (masterLoop fs i master slave ms).2.2.count m := List.count_pos_iff.mpr hm
  have hzero : ms.count m = 0 := List.count_eq_zero.mpr hms
  by_cases hlt : m.master < i
  · rw [masterLoop_count_other fs m master i slave ms hlt] at hpos
    omega
  · have hk : m = ⟨i + (m.master - i), m.slave⟩ := by
      cases m with
      | mk a b => simp at hlt ⊢; omega
    rw [hk, masterLoop_count, ← hk, hzero] at hpos
    have hs : sizeMatch fs master[m.master - i]? slave[m.slave]? ≠ 0 := by omega
    unfold sizeMatch at hs
    split at hs
    · rename_i a b ha hb
      have h1 := (List.getElem?_eq_some_iff.mp ha).1
      have h2 := (List.getElem?_eq_some_iff.mp hb).1
      omega
    · exact absurd rfl hs

/-- C1: `matcher::findPotentialMatches` returns exactly the cross-collection
pairs of equal size.  For every position `i` of master and `j` of slave the
match referring to `(master[i], slave[j])` occurs once when the two entries
report the same `getSize()` and does not occur otherwise; every match refers to
a position of master and a position of slave; an empty master gives no match. -/
theorem findPotentialMatches_exact (fs : FileSystem) (master slave : List entry) :
    (∀ (i : Fin master.length) (j : Fin slave.length),
      (findPotentialMatches fs master slave).matches_.count ⟨i.val, j.val⟩ =
        if (getSize fs (master.get i)).1 = (getSize fs (slave.get j)).1 then 1 else 0) ∧
    (∀ m ∈ (findPotentialMatches fs master slave).matches_,
      m.master < master.length ∧ m.slave < slave.length) ∧
    (findPotentialMatches fs [] slave).matches_ = [] := by
  refine ⟨?_, ?_, ?_⟩
  · intro i j
    have h := masterLoop_count fs master 0 slave [] i.val j.val
    simp only [Nat.zero_add, List.count_nil] at h
    simp only [findPotentialMatches, h, sizeMatch, List.getElem?_eq_getElem i.isLt,
      List.getElem?_eq_getElem j.isLt, List.get_eq_getElem]
  · intro m hm
    have h := masterLoop_mem fs m master 0 slave [] hm (List.not_mem_nil m)
    omega
  · simp [findPotentialMatches, masterLoop]

/-! ## Failed size queries -/

theorem getSize_of_coherent (fs : FileSystem) (e : entry) (h : sizeCoherent fs e = true) :
    (getSize fs e).1 = match fs.stat e.fileName with
      | some st_size => st_size
      | none => -1 := by
  unfold sizeCoherent at h
  cases hc : e.hasSize with
  | false => rw [getSize_of_fresh fs e hc]; rfl
  | true =>
    rw [getSize_of_cached fs e hc]
    simp only [hc, Bool.not_true, Bool.false_or, decide_eq_true_eq] at h
    rw [h]; rfl

theorem mem_findPotentialMatches (fs : FileSystem) (master slave : List entry) (m : match_)
    (hm : m ∈ (findPotentialMatches fs master slave).matches_) :
    sizeMatch fs master[m.master]? slave[m.slave]? = 1 := by
  have hpos : 0 < (findPotentialMatches fs master slave).matches_.count m :=
    List.count_pos_iff.mpr hm
  have h := masterLoop_count fs master 0 slave [] m.master m.slave
  simp only [Nat.zero_add, List.count_nil] at h
  simp only [findPotentialMatches] at hpos
  rw [h] at hpos
  unfold sizeMatch at hpos ⊢
  split at hpos
  · split at hpos
    · simp_all
    · omega
  · omega

/-- C9: a failed size query is surfaced as `-1`, never as `0`, and
`matcher::findPotentialMatches` never pairs an entry whose size query failed
with an entry whose size was read (sizes read by `stat` are non-negative; each
entry either has no cached size or holds what `stat` answers). -/
theorem failed_size_never_paired (fs : FileSystem) (master slave : List entry)
    (hnonneg : ∀ p n, fs.stat p = some n → 0 ≤ n)
    (hmaster : ∀ e ∈ master, sizeCoherent fs e = true)
    (hslave : ∀ e ∈ slave, sizeCoherent fs e = true) :
    (∀ e, sizeCoherent fs e = true → fs.stat e.fileName = none →
      (getSize fs e).1 = -1 ∧ (getSize fs e).1 ≠ 0) ∧
    (∀ m ∈ (findPotentialMatches fs master slave).matches_, ∀ me se,
      master[m.master]? = some me → slave[m.slave]? = some se →
        (fs.stat me.fileName = none ↔ fs.stat se.fileName = none)) := by
  constructor
  · intro e he hstat
    rw [getSize_of_coherent fs e he, hstat]
    simp
  · intro m hm me se hme hse
    have h := mem_findPotentialMatches fs master slave m hm
    rw [hme, hse] at h
    have heq : (getSize fs me).1 = (getSize fs se).1 := by
      unfold sizeMatch at h
      by_contra hne
      simp [hne] at h
    rw [getSize_of_coherent fs me (hmaster me (List.getElem?_mem hme)),
      getSize_of_coherent fs se (hslave se (List.getElem?_mem hse))] at heq
    cases h1 : fs.stat me.fileName with
    | none =>
      cases h2 : fs.stat se.fileName with
      | none => simp
      | some n =>
        have h0 : (0 : Int) ≤ n := hnonneg _ _ h2
        simp only [h1, h2] at heq
        rw [← heq] at h0
        exact absurd h0 (by decide)
    | some n =>
      cases h2 : fs.stat se.fileName with
      | none =>
        have h0 : (0 : Int) ≤ n := hnonneg _ _ h1
        simp only [h1, h2] at heq
        rw [heq] at h0
        exact absurd h0 (by decide)
      | some n' => simp

/-- C9 at a concrete input: `stat` fails for `gone` and `lost`, `empty` is a
real empty file; `gone` is paired with `lost` only, and its size is `-1`. -/
theorem failed_size_never_paired_witness :
    (findPotentialMatches vanishedFs [entry.new "gone"]
      [entry.new "empty", entry.new "lost"]).matches_ = [⟨0, 1⟩] ∧
    (getSize vanishedFs (entry.new "gone")).1 = -1 ∧
    (vanishedFs.stat "gone" = none ↔ vanishedFs.stat "lost" = none) := by
  have hnonneg : ∀ p n, vanishedFs.stat p = some n → 0 ≤ n := by
    intro p n h
    simp only [vanishedFs] at h
    split at h
    · simp only [Option.some.injEq] at h
      rw [← h]
    · simp at h
  have h := failed_size_never_paired vanishedFs [entry.new "gone"]
    [entry.new "empty", entry.new "lost"] hnonneg (by decide) (by decide)
  refine ⟨by decide, (h.1 (entry.new "gone") (by decide) (by decide)).1, ?_⟩
  exact h.2 ⟨0, 1⟩ (by decide) (entry.new "gone") (entry.new "lost") (by decide) (by decide)

/-! ## `utils::computeMD5` and `entry::getMD5` -/

theorem computeMD5_eq (MD5 : List u8 → md5) (fs : FileSystem) (e : entry) :
    computeMD5 MD5 fs e =
      match readBuffer (mmap (fs.openFile e.fileName) (to_size_t (getSize fs e).1))
          (to_size_t (getSize fs e).1) with
      | none => none
      | some bytes =>
        some (true, { (getSize fs e).2.1 with md5 := MD5 bytes },
          [Syscall.openRead e.fileName] ++ (getSize fs e).2.2 ++
            [Syscall.mmap (to_size_t (getSize fs e).1), Syscall.munmap, Syscall.close]) := by
  unfold computeMD5
  cases fs.openFile e.fileName <;> simp

theorem getMD5_of_cached (MD5 : List u8 → md5) (fs : FileSystem) (e : entry)
    (h : e.hasMd5 = true) : getMD5 MD5 fs e = some (e.md5, e, []) := by
  simp [getMD5, h]

theorem getMD5_of_fresh (MD5 : List u8 → md5) (fs : FileSystem) (e : entry)
    (h : e.hasMd5 = false) :
    getMD5 MD5 fs e =
      match readBuffer (mmap (fs.openFile e.fileName) (to_size_t (getSize fs e).1))
          (to_size_t (getSize fs e).1) with
      | none => none
      | some bytes =>
        some (MD5 bytes, { (getSize fs e).2.1 with md5 := MD5 bytes, hasMd5 := true },
          [Syscall.openRead e.fileName] ++ (getSize fs e).2.2 ++
            [Syscall.mmap (to_size_t (getSize fs e).1), Syscall.munmap, Syscall.close]) := by
  simp only [getMD5, h, computeMD5_eq]
  cases readBuffer (mmap (fs.openFile e.fileName) (to_size_t (getSize fs e).1))
    (to_size_t (getSize fs e).1) <;> simp

theorem getSize_fileName (fs : FileSystem) (e : entry) :
    (getSize fs e).2.1.fileName = e.fileName := by
  unfold getSize
  split <;> rfl

theorem getSize_md5 (fs : FileSystem) (e : entry) :
    (getSize fs e).2.1.md5 = e.md5 ∧ (getSize fs e).2.1.hasMd5 = e.hasMd5 := by
  unfold getSize
  split <;> simp

theorem getSize_trace (fs : FileSystem) (e : entry) :
    (getSize fs e).2.2 = if e.hasSize then [] else [Syscall.stat e.fileName] := by
  unfold getSize getFileSize
  cases e.hasSize <;> simp

theorem getMD5_post (MD5 : List u8 → md5) (fs : FileSystem) (e : entry)
    (r : md5 × entry × List Syscall) (h : getMD5 MD5 fs e = some r) :
    r.2.1.hasMd5 = true ∧ r.2.1.md5 = r.1 ∧ r.2.1.fileName = e.fileName ∧
      (e.hasSize = true → r.2.1.size = e.size ∧ r.2.1.hasSize = true) ∧
      r.2.2.count (Syscall.openRead e.fileName) ≤ 1 := by
  cases hc : e.hasMd5 with
  | true =>
    rw [getMD5_of_cached MD5 fs e hc] at h
    simp only [Option.some.injEq] at h
    subst h
    simp [hc]
  | false =>
    rw [getMD5_of_fresh MD5 fs e hc] at h
    split at h
    · exact absurd h (by simp)
    · simp only [Option.some.injEq] at h
      subst h
      refine ⟨rfl, rfl, getSize_fileName fs e, ?_, ?_⟩
      · intro hs
        simp [getSize_of_cached fs e hs, hs]
      · simp [getSize_trace, List.count_cons, List.count_append]
        split <;> simp

/-- C8: size and digest are each computed at most once.  A second `getSize` on
the entry the first call left returns the same value, leaves the entry as it
is and issues no system call, whatever file system it runs against; the first
call issues at most one.  The same holds for `getMD5`, whenever the first call
returns.  Once a flag is set, neither operation changes the cached value. -/
theorem cached_attributes_computed_once (MD5 MD5' : List u8 → md5) (fs fs' : FileSystem)
    (e : entry) :
    getSize fs' (getSize fs e).2.1 = ((getSize fs e).1, (getSize fs e).2.1, []) ∧
    (getSize fs e).2.2.length ≤ 1 ∧
    (∀ r, getMD5 MD5 fs e = some r →
      getMD5 MD5' fs' r.2.1 = some (r.1, r.2.1, []) ∧
        r.2.2.count (Syscall.openRead e.fileName) ≤ 1) ∧
    (e.hasSize = true → getSize fs e = (e.size, e, []) ∧
      ∀ r, getMD5 MD5 fs e = some r → r.2.1.size = e.size ∧ r.2.1.hasSize = true) ∧
    (e.hasMd5 = true → getMD5 MD5 fs e = some (e.md5, e, []) ∧
      (getSize fs e).2.1.md5 = e.md5 ∧ (getSize fs e).2.1.hasMd5 = true) := by
  refine ⟨getSize_again fs fs' e, ?_, ?_, ?_, ?_⟩
  · rw [getSize_trace]
    split <;> simp
  · intro r h
    have hp := getMD5_post MD5 fs e r h
    refine ⟨?_, hp.2.2.2.2⟩
    rw [getMD5_of_cached MD5' fs' r.2.1 hp.1, hp.2.1]
  · intro hs
    refine ⟨getSize_of_cached fs e hs, ?_⟩
    intro r h
    exact (getMD5_post MD5 fs e r h).2.2.2.1 hs
  · intro hm
    refine ⟨getMD5_of_cached MD5 fs e hm, (getSize_md5 fs e).1, ?_⟩
    rw [(getSize_md5 fs e).2, hm]

/-- C8 at a concrete input: the second calls run against a file system in
which `a` no longer exists, with another digest function, and still return
the values of the first calls without a system call. -/
theorem cached_attributes_computed_once_witness :
    getSize smallFs (entry.new "a") =
      (3, { fileName := "a", size := 3, md5 := md5.zero, hasSize := true, hasMd5 := false },
        [Syscall.stat "a"]) ∧
    getSize vanishedFs
        { fileName := "a", size := 3, md5 := md5.zero, hasSize := true, hasMd5 := false } =
      (3, { fileName := "a", size := 3, md5 := md5.zero, hasSize := true, hasMd5 := false }, []) ∧
    getMD5 sampleDigest smallFs (entry.new "a") =
      some (sampleDigest [97, 98, 99],
        { fileName := "a", size := 3, md5 := sampleDigest [97, 98, 99], hasSize := true,
          hasMd5 := true },
        [Syscall.openRead "a", Syscall.stat "a", Syscall.mmap 3, Syscall.munmap,
          Syscall.close]) ∧
    getMD5 (fun _ => md5.zero) vanishedFs
        { fileName := "a", size := 3, md5 := sampleDigest [97, 98, 99], hasSize := true,
          hasMd5 := true } =
      some (sampleDigest [97, 98, 99],
        { fileName := "a", size := 3, md5 := sampleDigest [97, 98, 99], hasSize := true,
          hasMd5 := true }, []) :=
  ⟨by decide,
    (cached_attributes_computed_once sampleDigest (fun _ => md5.zero) smallFs vanishedFs
      (entry.new "a")).1,
    by decide,
    ((cached_attributes_computed_once sampleDigest (fun _ => md5.zero) smallFs vanishedFs
      (entry.new "a")).2.2.1
        (sampleDigest [97, 98, 99],
          { fileName := "a", size := 3, md5 := sampleDigest [97, 98, 99], hasSize := true,
            hasMd5 := true },
          [Syscall.openRead "a", Syscall.stat "a", Syscall.mmap 3, Syscall.munmap,
            Syscall.close])
        (by decide)).1⟩

theorem to_size_t_length (content : List u8) (hfit : content.length < 2 ^ 63) :
    to_size_t (content.length : Int) = content.length := by
  unfold to_size_t
  omega

theorem readBuffer_mmap_whole (content : List u8) :
    readBuffer (mmap (some content) content.length) content.length = some content := by
  unfold readBuffer mmap
  by_cases h : content.length = 0
  · simp [h, List.length_eq_zero.mp h]
  · simp [h]

/-! ## Digests of readable files -/

/-- The digest `entry::getMD5` computes is that of the first `getSize()` bytes
of the file. -/
theorem getMD5_hashes_size_bytes (MD5 : List u8 → md5) (fs : FileSystem) (e : entry)
    (content : List u8) (n : Nat) (hfresh : e.hasMd5 = false)
    (hopen : fs.openFile e.fileName = some content) (hsize : (getSize fs e).1 = (n : Int))
    (hpos : 0 < n) (hle : n ≤ content.length) (hfit : n < 2 ^ 63) :
    ∃ r, getMD5 MD5 fs e = some r ∧ r.1 = MD5 (content.take n) := by
  have hn : to_size_t (n : Int) = n := by
    unfold to_size_t
    omega
  rw [getMD5_of_fresh MD5 fs e hfresh, hopen, hsize, hn]
  have hne : n ≠ 0 := by omega
  simp only [mmap, readBuffer, hne, if_false, hle, if_true]
  exact ⟨_, rfl, rfl⟩

theorem getMD5_readable (MD5 : List u8 → md5) (fs : FileSystem) (e : entry)
    (content : List u8) (hr : readableAs fs e content = true) :
    ∃ r, getMD5 MD5 fs e = some r ∧
      (digestCoherent MD5 e content = true → r.1 = MD5 content) := by
  simp only [readableAs, Bool.and_eq_true, decide_eq_true_eq] at hr
  obtain ⟨⟨hopen, hsize⟩, hfit⟩ := hr
  cases hc : e.hasMd5 with
  | true =>
    refine ⟨_, getMD5_of_cached MD5 fs e hc, ?_⟩
    intro hd
    simpa [digestCoherent, hc] using hd
  | false =>
    rw [getMD5_of_fresh MD5 fs e hc, hopen, hsize, to_size_t_length content hfit,
      readBuffer_mmap_whole]
    exact ⟨_, rfl, fun _ => rfl⟩

/-- C4: for two entries whose files can be opened and read and have the same
content, `getMD5` returns for each the MD5 of the whole content, so the two
digests are equal; the digest is stored in the entry and marked as cached.  (An
entry that already holds a digest holds the one computed from its file.) -/
theorem getMD5_whole_content (MD5 : List u8 → md5) (fs : FileSystem) (e1 e2 : entry)
    (content : List u8) (h1 : digestCoherent MD5 e1 content = true)
    (h2 : digestCoherent MD5 e2 content = true)
    (hr1 : readableAs fs e1 content = true) (hr2 : readableAs fs e2 content = true) :
    ∃ r1 r2, getMD5 MD5 fs e1 = some r1 ∧ getMD5 MD5 fs e2 = some r2 ∧
      r1.1 = MD5 content ∧ r2.1 = MD5 content ∧ r1.1 = r2.1 ∧
      r1.2.1.md5 = MD5 content ∧ r2.2.1.md5 = MD5 content ∧
      r1.2.1.hasMd5 = true ∧ r2.2.1.hasMd5 = true := by
  obtain ⟨r1, hg1, hd1⟩ := getMD5_readable MD5 fs e1 content hr1
  obtain ⟨r2, hg2, hd2⟩ := getMD5_readable MD5 fs e2 content hr2
  have p1 := getMD5_post MD5 fs e1 r1 hg1
  have p2 := getMD5_post MD5 fs e2 r2 hg2
  refine ⟨r1, r2, hg1, hg2, hd1 h1, hd2 h2, ?_, ?_, ?_, p1.1, p2.1⟩
  · rw [hd1 h1, hd2 h2]
  · rw [p1.2.1, hd1 h1]
  · rw [p2.2.1, hd2 h2]

/-- C4 at a concrete input: `a` and `b` hold the same three bytes. -/
theorem getMD5_whole_content_witness :
    ∃ r1 r2, getMD5 sampleDigest smallFs (entry.new "a") = some r1 ∧
      getMD5 sampleDigest smallFs (entry.new "b") = some r2 ∧
      r1.1 = sampleDigest [97, 98, 99] ∧ r2.1 = sampleDigest [97, 98, 99] ∧ r1.1 = r2.1 ∧
      r1.2.1.md5 = sampleDigest [97, 98, 99] ∧ r2.2.1.md5 = sampleDigest [97, 98, 99] ∧
      r1.2.1.hasMd5 = true ∧ r2.2.1.hasMd5 = true :=
  getMD5_whole_content sampleDigest smallFs (entry.new "a") (entry.new "b") [97, 98, 99]
    (by decide) (by decide) (by decide) (by decide)

/-! ## `matcher::verifyMatch` -/

theorem md5_eq_iff (a b : md5) :
    md5.eq a b = true ↔ ∀ i, i < MD5_DIGEST_LENGTH → a.data[i]? = b.data[i]? := by
  unfold md5.eq
  rw [beq_iff_eq]
  constructor
  · intro h i _
    rw [h]
  · intro h
    apply List.ext_getElem?
    intro i
    by_cases hi : i < MD5_DIGEST_LENGTH
    · exact h i hi
    · rw [List.getElem?_eq_none (by rw [a.size_eq]; omega),
        List.getElem?_eq_none (by rw [b.size_eq]; omega)]

theorem md5_eq_iff_eq (a b : md5) : md5.eq a b = true ↔ a = b := by
  unfold md5.eq
  rw [beq_iff_eq]
  constructor
  · intro h
    cases a; cases b
    simp only at h
    subst h
    rfl
  · intro h
    rw [h]

theorem verifyMatch_eq (MD5 : List u8 → md5) (fs : FileSystem) (m s : entry)
    (rm rs : md5 × entry × List Syscall) (hm : getMD5 MD5 fs m = some rm)
    (hs : getMD5 MD5 fs s = some rs) :
    verifyMatch MD5 fs m s =
      some { result := md5.eq rm.1 rs.1, master := rm.2.1, slave := rs.2.1 } := by
  simp only [verifyMatch, hm, hs, (getMD5_post MD5 fs m rm hm).2.1,
    (getMD5_post MD5 fs s rs hs).2.1]

/-- C2: for a candidate match whose two files can be read, `verifyMatch`
returns, and it returns true if and only if the digests the two `getMD5` calls
return agree on each of the 16 bytes. -/
theorem verifyMatch_iff_digests_equal (MD5 : List u8 → md5) (fs : FileSystem) (m s : entry)
    (cm cs : List u8) (hm : readableAs fs m cm = true) (hs : readableAs fs s cs = true) :
    ∃ rm rs v, getMD5 MD5 fs m = some rm ∧ getMD5 MD5 fs s = some rs ∧
      verifyMatch MD5 fs m s = some v ∧
      (v.result = true ↔ ∀ i, i < MD5_DIGEST_LENGTH → rm.1.data[i]? = rs.1.data[i]?) ∧
      (v.result = true ↔ rm.1 = rs.1) ∧
      (digestCoherent MD5 m cm = true → digestCoherent MD5 s cs = true →
        (v.result = true ↔ MD5 cm = MD5 cs)) := by
  obtain ⟨rm, hgm, hdm⟩ := getMD5_readable MD5 fs m cm hm
  obtain ⟨rs, hgs, hds⟩ := getMD5_readable MD5 fs s cs hs
  refine ⟨rm, rs, _, hgm, hgs, verifyMatch_eq MD5 fs m s rm rs hgm hgs, md5_eq_iff _ _,
    md5_eq_iff_eq _ _, ?_⟩
  intro h1 h2
  rw [← hdm h1, ← hds h2]
  exact md5_eq_iff_eq _ _

/-- C2 at a concrete input: `a` and `b` hold the same bytes, `c` other bytes. -/
theorem verifyMatch_iff_digests_equal_witness :
    (verifyMatch sampleDigest smallFs (entry.new "a") (entry.new "b")).map
        (fun v => v.result) = some true ∧
    (verifyMatch sampleDigest smallFs (entry.new "a") (entry.new "c")).map
        (fun v => v.result) = some false ∧
    ∃ rm rs v, getMD5 sampleDigest smallFs (entry.new "a") = some rm ∧
      getMD5 sampleDigest smallFs (entry.new "c") = some rs ∧
      verifyMatch sampleDigest smallFs (entry.new "a") (entry.new "c") = some v ∧
      (v.result = true ↔ ∀ i, i < MD5_DIGEST_LENGTH → rm.1.data[i]? = rs.1.data[i]?) ∧
      (v.result = true ↔ rm.1 = rs.1) ∧
      (digestCoherent sampleDigest (entry.new "a") [97, 98, 99] = true →
        digestCoherent sampleDigest (entry.new "c") [120, 121, 122] = true →
        (v.result = true ↔ sampleDigest [97, 98, 99] = sampleDigest [120, 121, 122])) :=
  ⟨by decide, by decide,
    verifyMatch_iff_digests_equal sampleDigest smallFs (entry.new "a") (entry.new "c")
      [97, 98, 99] [120, 121, 122] (by decide) (by decide)⟩

/-! ## Files that cannot be opened -/

/-- The guard `fd < -1` of `utils::computeMD5` holds for no result of `open`:
whenever the function returns, it returns true. -/
theorem computeMD5_never_false (MD5 : List u8 → md5) (fs : FileSystem) (e : entry)
    (r : Bool × entry × List Syscall) (h : computeMD5 MD5 fs e = some r) : r.1 = true := by
  rw [computeMD5_eq] at h
  split at h
  · exact absurd h (by simp)
  · simp only [Option.some.injEq] at h
    rw [← h]

/-- C5 at inputs the code can receive.  `locked1` is an empty file that cannot
be opened (`open` returns `-1`): `utils::computeMD5` does not return false but
goes on to `mmap` and `MD5`, stores the digest of no bytes and returns true, and
`matcher::verifyMatch` reports the candidate pairing it with the readable empty
file as a duplicate.  `sealed` is a three-byte file that cannot be opened:
there `utils::computeMD5` reads through the failed mapping and has no defined
result.  For no file that cannot be opened does `utils::computeMD5` return
false. -/
theorem unopenable_file_counted_as_match :
    lockedFs.openFile "locked1" = none ∧
    computeMD5 sampleDigest lockedFs (entry.new "locked1") =
      some (true,
        { fileName := "locked1", size := 0, md5 := sampleDigest [], hasSize := true,
          hasMd5 := false },
        [Syscall.openRead "locked1", Syscall.stat "locked1", Syscall.mmap 0, Syscall.munmap,
          Syscall.close]) ∧
    (verifyMatch sampleDigest lockedFs (entry.new "locked1") (entry.new "empty")).map
        (fun v => v.result) = some true ∧
    lockedFs.openFile "sealed" = none ∧
    computeMD5 sampleDigest lockedFs (entry.new "sealed") = none ∧
    verifyMatch sampleDigest lockedFs (entry.new "sealed") (entry.new "empty") = none ∧
    (∀ (MD5 : List u8 → md5) (fs : FileSystem) (e : entry) (r : Bool × entry × List Syscall),
      fs.openFile e.fileName = none → computeMD5 MD5 fs e = some r → r.1 = true) :=
  ⟨by decide, by decide, by decide, by decide, by decide, by decide,
    fun MD5 fs e r _ h => computeMD5_never_false MD5 fs e r h⟩

/-! ## `main` -/

/-- C3 on the scenario of the specification: for every digest function, `main`
writes 2 as the number of potential matches and 2 again as the number of
verified matches, while `verifiedMatches` holds one match as soon as the digests
of "abc" and "xyz" differ. -/
theorem main_writes_candidate_count_as_verified (MD5 : List u8 → md5) :
    (∃ r, main MD5 scenarioFs 1 = some r ∧ r.potentialLine = 2 ∧ r.verifiedLine = 2 ∧
      r.verifiedMatches =
        if MD5 [97, 98, 99] = MD5 [120, 121, 122] then [⟨0, 0⟩, ⟨0, 1⟩] else [⟨0, 0⟩]) ∧
    (∀ fs fuel r, main MD5 fs fuel = some r → r.verifiedLine = r.potentialLine) := by
  refine ⟨?_, ?_⟩
  swap
  · intro fs fuel r h
    unfold main at h
    split at h
    · simp only at h
      split at h
      · exact absurd h (by simp)
      · simp only [Option.some.injEq] at h
        rw [← h]
    · exact absurd h (by simp)
  have hE1 : enumerateDirectory 1 scenarioFs masterPath (fun _ => true) true true =
      some [entry.new (masterPath ++ "/A")] := by decide
  have hE2 : enumerateDirectory 1 scenarioFs slavePath (fun _ => true) true true =
      some [entry.new (slavePath ++ "/B"), entry.new (slavePath ++ "/C")] := by decide
  have hA1 : accumulate scenarioFs [entry.new (masterPath ++ "/A")] { size := 0, count := 0 } =
      ({ size := 3, count := 1 },
        [{ entry.new (masterPath ++ "/A") with size := 3, hasSize := true }]) := by decide
  have hA2 : accumulate scenarioFs [entry.new (slavePath ++ "/B"), entry.new (slavePath ++ "/C")]
      { size := 3, count := 1 } =
      ({ size := 9, count := 3 },
        [{ entry.new (slavePath ++ "/B") with size := 3, hasSize := true },
         { entry.new (slavePath ++ "/C") with size := 3, hasSize := true }]) := by decide
  have hF : findPotentialMatches scenarioFs
      [{ entry.new (masterPath ++ "/A") with size := 3, hasSize := true }]
      [{ entry.new (slavePath ++ "/B") with size := 3, hasSize := true },
       { entry.new (slavePath ++ "/C") with size := 3, hasSize := true }] =
      { matches_ := [⟨0, 0⟩, ⟨0, 1⟩],
        master := [{ entry.new (masterPath ++ "/A") with size := 3, hasSize := true }],
        slave := [{ entry.new (slavePath ++ "/B") with size := 3, hasSize := true },
                  { entry.new (slavePath ++ "/C") with size := 3, hasSize := true }] } := by
    decide
  have hV1 : verifyMatch MD5 scenarioFs
      { entry.new (masterPath ++ "/A") with size := 3, hasSize := true }
      { entry.new (slavePath ++ "/B") with size := 3, hasSize := true } =
      some { result := md5.eq (MD5 [97, 98, 99]) (MD5 [97, 98, 99]),
             master := { fileName := masterPath ++ "/A", size := 3, md5 := MD5 [97, 98, 99],
                         hasSize := true, hasMd5 := true },
             slave := { fileName := slavePath ++ "/B", size := 3, md5 := MD5 [97, 98, 99],
                        hasSize := true, hasMd5 := true } } := by rfl
  have hV2 : verifyMatch MD5 scenarioFs
      { fileName := masterPath ++ "/A", size := 3, md5 := MD5 [97, 98, 99],
        hasSize := true, hasMd5 := true }
      { entry.new (slavePath ++ "/C") with size := 3, hasSize := true } =
      some { result := md5.eq (MD5 [97, 98, 99]) (MD5 [120, 121, 122]),
             master := { fileName := masterPath ++ "/A", size := 3, md5 := MD5 [97, 98, 99],
                         hasSize := true, hasMd5 := true },
             slave := { fileName := slavePath ++ "/C", size := 3, md5 := MD5 [120, 121, 122],
                        hasSize := true, hasMd5 := true } } := by rfl
  have h1 : md5.eq (MD5 [97, 98, 99]) (MD5 [97, 98, 99]) = true := (md5_eq_iff_eq _ _).mpr rfl
  simp only [main, hE1, hE2, hA1, hA2, hF, copy_if, List.getElem?_cons_zero,
    List.getElem?_cons_succ, List.set_cons_zero, List.set_cons_succ, hV1, hV2, h1]
  by_cases h : MD5 [97, 98, 99] = MD5 [120, 121, 122]
  · have h2 : md5.eq (MD5 [97, 98, 99]) (MD5 [120, 121, 122]) = true := (md5_eq_iff_eq _ _).mpr h
    rw [h2, if_pos h]
    simp
  · have h2 : md5.eq (MD5 [97, 98, 99]) (MD5 [120, 121, 122]) = false := by
      cases hb : md5.eq (MD5 [97, 98, 99]) (MD5 [120, 121, 122])
      · rfl
      · exact absurd ((md5_eq_iff_eq _ _).mp hb) h
    rw [h2, if_neg h]
    simp

/-! ## `utils::enumerateDirectory` -/

theorem enumerateDirectory_filter_irrelevant (fs : FileSystem) (f g : String → Bool)
    (verbose : Bool) :
    ∀ (fuel : Nat) (folder : String) (recursive : Bool),
      enumerateDirectory fuel fs folder f recursive verbose =
        enumerateDirectory fuel fs folder g recursive verbose := by
  intro fuel
  induction fuel with
  | zero => intro folder recursive; rfl
  | succ fuel ih =>
    intro folder recursive
    unfold enumerateDirectory
    have hrec : (fun sub => enumerateDirectory fuel fs sub f true verbose) =
        (fun sub => enumerateDirectory fuel fs sub g true verbose) :=
      funext fun sub => ih sub true
    rw [hrec]

/-- C6 on a concrete input: with a filter that rejects every name, the walk of
the slave directory of the scenario still returns its two regular files; in
general the result is the same for every two filters. -/
theorem enumerateDirectory_ignores_filter :
    enumerateDirectory 1 scenarioFs slavePath (fun _ => false) true false =
      some [entry.new (slavePath ++ "/B"), entry.new (slavePath ++ "/C")] ∧
    (∀ (fs : FileSystem) (f g : String → Bool) (fuel : Nat) (folder : String)
      (recursive verbose : Bool),
      enumerateDirectory fuel fs folder f recursive verbose =
        enumerateDirectory fuel fs folder g recursive verbose) :=
  ⟨by decide, fun fs f g fuel folder recursive verbose =>
    enumerateDirectory_filter_irrelevant fs f g verbose fuel folder recursive⟩

/-! ## What `utils::enumerateDirectory` collects -/


theorem exists_mem_cons_iff {α : Type} (p : α → Prop) (a : α) (l : List α) :
    (∃ x ∈ a :: l, p x) ↔ p a ∨ ∃ x ∈ l, p x := by
  constructor
  · rintro ⟨x, hx, hp⟩
    rcases List.mem_cons.mp hx with rfl | hx
    · exact Or.inl hp
    · exact Or.inr ⟨x, hx, hp⟩
  · rintro (hp | ⟨x, hx, hp⟩)
    · exact ⟨a, List.mem_cons_self a l, hp⟩
    · exact ⟨x, List.mem_cons_of_mem a hx, hp⟩

theorem readdirLoop_mem (recurse : String → Option (List entry)) (folder : String)
    (recursive : Bool) (P : String → entry → Prop)
    (hrec : ∀ sub r, recurse sub = some r → ∀ e, e ∈ r ↔ P sub e) :
    ∀ (rest : List dirent) (files out : List entry),
      readdirLoop recurse folder recursive rest files = some out →
      ∀ e, e ∈ out ↔ e ∈ files ∨ ∃ d ∈ rest, yields recursive folder P e d := by
  intro rest
  induction rest with
  | nil =>
    intro files out h e
    simp only [readdirLoop, Option.some.injEq] at h
    subst h
    simp
  | cons d rest ih =>
    intro files out h e
    unfold readdirLoop at h
    simp only at h
    rw [exists_mem_cons_iff]
    by_cases hskip : skippedName d.d_name = true
    · have hs : (d.d_name == "." || d.d_name == ".." || d.d_name == ".DS_Store") = true := hskip
      rw [if_pos hs] at h
      have hQ : ¬ yields recursive folder P e d := by
        intro hy
        rw [hy.1] at hskip
        exact absurd hskip (by decide)
      rw [ih files out h e]
      tauto
    · have hs : ¬ (d.d_name == "." || d.d_name == ".." || d.d_name == ".DS_Store") = true := hskip
      have hskip' : skippedName d.d_name = false := by simpa using hskip
      rw [if_neg hs] at h
      by_cases hdir : (d.d_type == DType.DT_DIR && recursive) = true
      · rw [if_pos hdir] at h
        simp only [Bool.and_eq_true, beq_iff_eq] at hdir
        cases hr : recurse (folder ++ "/" ++ d.d_name) with
        | none => simp [hr] at h
        | some rfiles =>
          simp only [hr] at h
          have hQ : yields recursive folder P e d ↔ P (folder ++ "/" ++ d.d_name) e := by
            unfold yields
            simp [hskip', hdir.1, hdir.2]
          rw [ih _ out h e, List.mem_append, hrec _ _ hr e, hQ]
          tauto
      · rw [if_neg hdir] at h
        by_cases hreg : (d.d_type == DType.DT_REG) = true
        · rw [if_pos hreg] at h
          simp only [beq_iff_eq] at hreg
          have hQ : yields recursive folder P e d ↔ e = entry.new (folder ++ "/" ++ d.d_name) := by
            unfold yields
            simp [hskip', hreg]
          rw [ih _ out h e, List.mem_append, List.mem_singleton, hQ]
          tauto
        · rw [if_neg hreg] at h
          simp only [beq_iff_eq] at hreg
          simp only [Bool.and_eq_true, beq_iff_eq, not_and] at hdir
          have hQ : ¬ yields recursive folder P e d := by
            intro hy
            rcases hy.2 with h1 | h1
            · exact hreg h1.1
            · exact hdir h1.1 h1.2.1
          rw [ih _ out h e]
          tauto

theorem not_collected_of_closed (fs : FileSystem) (recursive : Bool) (folder path : String)
    (h : fs.opendir folder = none) : ¬ Collected fs recursive folder path := by
  intro hc
  cases hc with
  | file _ _ listing d ho => rw [h] at ho; exact absurd ho (by simp)
  | descend _ listing d _ ho => rw [h] at ho; exact absurd ho (by simp)

theorem collected_iff (fs : FileSystem) (recursive : Bool) (folder : String)
    (listing : List dirent) (h : fs.opendir folder = some listing) (e : entry) :
    (∃ d ∈ listing, yields recursive folder
      (fun sub e => e = entry.new e.fileName ∧ Collected fs true sub e.fileName) e d) ↔
    e = entry.new e.fileName ∧ Collected fs recursive folder e.fileName := by
  constructor
  · rintro ⟨d, hd, hskip, hy⟩
    rcases hy with ⟨hreg, he⟩ | ⟨hdir, hr, hfresh, hc⟩
    · have hname : e.fileName = folder ++ "/" ++ d.d_name := by rw [he]; rfl
      rw [hname]
      exact ⟨he, Collected.file recursive folder listing d h hd hskip hreg⟩
    · subst hr
      exact ⟨hfresh, Collected.descend folder listing d _ h hd hskip hdir hc⟩
  · rintro ⟨hfresh, hc⟩
    generalize hp : e.fileName = p at hc
    cases hc with
    | file _ _ listing' d ho hd hskip hreg =>
      rw [h] at ho
      simp only [Option.some.injEq] at ho
      subst ho
      refine ⟨d, hd, hskip, Or.inl ⟨hreg, ?_⟩⟩
      rw [hfresh, hp]
    | descend _ listing' d _ ho hd hskip hdir hsub =>
      rw [h] at ho
      simp only [Option.some.injEq] at ho
      subst ho
      refine ⟨d, hd, hskip, Or.inr ⟨hdir, rfl, hfresh, ?_⟩⟩
      rw [hp]
      exact hsub

theorem enumerateDirectory_mem (fs : FileSystem) (filter : String → Bool) (verbose : Bool) :
    ∀ (fuel : Nat) (folder : String) (recursive : Bool) (files : List entry),
      enumerateDirectory fuel fs folder filter recursive verbose = some files →
      ∀ e, e ∈ files ↔ e = entry.new e.fileName ∧ Collected fs recursive folder e.fileName := by
  intro fuel
  induction fuel with
  | zero => intro folder recursive files h; simp [enumerateDirectory] at h
  | succ fuel ih =>
    intro folder recursive files h e
    unfold enumerateDirectory at h
    cases ho : fs.opendir folder with
    | none =>
      simp only [ho, Option.some.injEq] at h
      subst h
      have := not_collected_of_closed fs recursive folder e.fileName ho
      simp [this]
    | some listing =>
      simp only [ho] at h
      have hl := readdirLoop_mem _ folder recursive
        (fun sub e => e = entry.new e.fileName ∧ Collected fs true sub e.fileName)
        (fun sub r hr e => ih sub true r hr e) listing [] files h e
      rw [hl, collected_iff fs recursive folder listing ho e]
      simp

theorem collected_is_regular_file (fs : FileSystem) (recursive : Bool) (folder path : String)
    (h : Collected fs recursive folder path) :
    ∃ parent listing d, fs.opendir parent = some listing ∧ d ∈ listing ∧
      d.d_type = DType.DT_REG ∧ d.d_name ≠ "." ∧ d.d_name ≠ ".." ∧ d.d_name ≠ ".DS_Store" ∧
      path = parent ++ "/" ++ d.d_name := by
  induction h with
  | file recursive folder listing d ho hd hskip hreg =>
    refine ⟨folder, listing, d, ho, hd, hreg, ?_, ?_, ?_, rfl⟩ <;>
      · intro hn
        rw [hn] at hskip
        exact absurd hskip (by decide)
  | descend folder listing d path ho hd hskip hdir hsub ih => exact ih

theorem readdirLoop_nonrecursive (recurse : String → Option (List entry)) (folder : String) :
    ∀ (rest : List dirent) (files : List entry),
      readdirLoop recurse folder false rest files = some (files ++ directChildren folder rest) := by
  intro rest
  induction rest with
  | nil => intro files; simp [readdirLoop, directChildren]
  | cons d rest ih =>
    intro files
    unfold readdirLoop
    simp only [Bool.and_false, Bool.false_eq_true, if_false]
    by_cases hskip : skippedName d.d_name = true
    · have hs : (d.d_name == "." || d.d_name == ".." || d.d_name == ".DS_Store") = true := hskip
      rw [if_pos hs, ih]
      simp [directChildren, List.filter_cons, hskip]
    · have hs : ¬ (d.d_name == "." || d.d_name == ".." || d.d_name == ".DS_Store") = true := hskip
      have hskip' : skippedName d.d_name = false := by simpa using hskip
      rw [if_neg hs]
      by_cases hreg : (d.d_type == DType.DT_REG) = true
      · rw [if_pos hreg, ih]
        simp [directChildren, List.filter_cons, hskip', hreg]
      · rw [if_neg hreg, ih]
        simp [directChildren, List.filter_cons, hskip', hreg]

theorem readdirLoop_isSome (recurse : String → Option (List entry)) (folder : String)
    (recursive : Bool) :
    ∀ (rest : List dirent),
      (∀ d ∈ rest, skippedName d.d_name = false → d.d_type = DType.DT_DIR →
        (recurse (folder ++ "/" ++ d.d_name)).isSome = true) →
      ∀ files, (readdirLoop recurse folder recursive rest files).isSome = true := by
  intro rest
  induction rest with
  | nil => intro _ files; simp [readdirLoop]
  | cons d rest ih =>
    intro hall files
    have hrest := ih fun d' hd' => hall d' (List.mem_cons_of_mem d hd')
    unfold readdirLoop
    simp only
    split
    · exact hrest _
    · rename_i hs
      split
      · rename_i hdir
        simp only [Bool.and_eq_true, beq_iff_eq] at hdir
        have hskip : skippedName d.d_name = false := by
          simpa [skippedName] using hs
        have hsome := hall d (List.mem_cons_self d rest) hskip hdir.1
        cases hr : recurse (folder ++ "/" ++ d.d_name) with
        | none => rw [hr] at hsome; exact absurd hsome (by simp)
        | some rfiles => exact hrest _
      · split
        · exact hrest _
        · exact hrest _

theorem enumerateDirectory_isSome (fs : FileSystem) (filter : String → Bool) (verbose : Bool) :
    ∀ (n : Nat) (folder : String) (recursive : Bool), withinDepth fs n folder = true →
      (enumerateDirectory n fs folder filter recursive verbose).isSome = true := by
  intro n
  induction n with
  | zero => intro folder recursive h; simp [withinDepth] at h
  | succ n ih =>
    intro folder recursive h
    unfold enumerateDirectory
    unfold withinDepth at h
    cases ho : fs.opendir folder with
    | none => simp
    | some listing =>
      simp only [ho, List.all_eq_true, Bool.or_eq_true] at h
      simp only
      apply readdirLoop_isSome
      intro d hd hskip hdir
      apply ih
      rcases h d hd with (h1 | h1) | h1
      · rw [hskip] at h1; exact absurd h1 (by decide)
      · rw [hdir] at h1; exact absurd h1 (by decide)
      · exact h1

/-- C7: `utils::enumerateDirectory` collects only regular files.  Whenever
the walk returns, what it returns is exactly the fresh entries of the paths
`Collected` describes: each is `parent + "/" + name` for a directory entry of
type regular file whose name is none of ".", "..", ".DS_Store"; directories are
not collected, and what lies below them is collected exactly when the walk is
recursive.  Without recursion the walk returns the regular files of the root
alone; a root that cannot be opened gives the empty sequence; and the walk
returns as soon as the bound covers the depth of the tree. -/
theorem enumerateDirectory_collects_regular_files (fs : FileSystem) (folder : String)
    (filter : String → Bool) (recursive verbose : Bool) :
    (∀ fuel files, enumerateDirectory fuel fs folder filter recursive verbose = some files →
      (∀ e, e ∈ files ↔ e = entry.new e.fileName ∧ Collected fs recursive folder e.fileName) ∧
      (∀ e ∈ files, ∃ parent listing d, fs.opendir parent = some listing ∧ d ∈ listing ∧
        d.d_type = DType.DT_REG ∧ d.d_name ≠ "." ∧ d.d_name ≠ ".." ∧
        d.d_name ≠ ".DS_Store" ∧ e = entry.new (parent ++ "/" ++ d.d_name))) ∧
    (∀ fuel, enumerateDirectory (fuel + 1) fs folder filter false verbose =
      some (match fs.opendir folder with
        | none => []
        | some listing => directChildren folder listing)) ∧
    (fs.opendir folder = none →
      ∀ fuel, enumerateDirectory (fuel + 1) fs folder filter recursive verbose = some []) ∧
    (∀ n, withinDepth fs n folder = true →
      (enumerateDirectory n fs folder filter recursive verbose).isSome = true) := by
  refine ⟨?_, ?_, ?_, ?_⟩
  · intro fuel files h
    have hmem := enumerateDirectory_mem fs filter verbose fuel folder recursive files h
    refine ⟨hmem, ?_⟩
    intro e he
    obtain ⟨hfresh, hc⟩ := (hmem e).mp he
    obtain ⟨parent, listing, d, ho, hd, hreg, h1, h2, h3, hp⟩ :=
      collected_is_regular_file fs recursive folder e.fileName hc
    refine ⟨parent, listing, d, ho, hd, hreg, h1, h2, h3, ?_⟩
    rw [hfresh, hp]
  · intro fuel
    unfold enumerateDirectory
    cases fs.opendir folder with
    | none => rfl
    | some listing => simp [readdirLoop_nonrecursive]
  · intro ho fuel
    unfold enumerateDirectory
    simp [ho]
  · intro n h
    exact enumerateDirectory_isSome fs filter verbose n folder recursive h

/-- C7 at a concrete input: the walk of `treeFs`, recursive and not. -/
theorem enumerateDirectory_collects_regular_files_witness :
    enumerateDirectory 3 treeFs "root" (fun _ => true) true false =
      some [entry.new "root/a.txt", entry.new "root/sub/b.txt",
        entry.new "root/sub/deep/c.txt"] ∧
    enumerateDirectory 1 treeFs "root" (fun _ => true) false false =
      some [entry.new "root/a.txt"] ∧
    withinDepth treeFs 3 "root" = true ∧
    Collected treeFs true "root" "root/sub/deep/c.txt" :=
  ⟨by decide, by decide, by decide,
    ((((enumerateDirectory_collects_regular_files treeFs "root" (fun _ => true) true false).1 3
      [entry.new "root/a.txt", entry.new "root/sub/b.txt", entry.new "root/sub/deep/c.txt"]
      (by decide)).1 (entry.new "root/sub/deep/c.txt")).mp (by decide)).2⟩

/-! ## `operator<<(ostream&, md5)` -/

set_option maxRecDepth 100000 in
theorem toDigits_byte : ∀ b : u8,
    List.replicate (2 - (Nat.toDigits 16 b.val).length) '0' ++ Nat.toDigits 16 b.val =
      hexPair b := by
  decide

theorem putByte_text (st : ostream) (b : u8) (h : plainState st) :
    (putByte st b).text = st.text ++ hexPair b ∧ plainState (putByte st b) := by
  obtain ⟨hu, hb, ha⟩ := h
  have hd := toDigits_byte b
  constructor
  · simp only [putByte, putInt, hex, setfill, setw, prefixOf, digitsOf, hu, hb,
      Bool.false_and, Bool.false_eq_true, if_false, List.length_nil, Nat.zero_add,
      List.nil_append, List.append_nil]
    cases hadj : st.flags.adjustfield with
    | left => exact absurd hadj ha
    | unset => simp only [hd]
    | right => simp only [hd]
    | internal => simp only [hd]
  · exact ⟨hu, hb, ha⟩

theorem foldl_putByte (data : List u8) :
    ∀ (n : Nat) (st : ostream), n ≤ data.length → plainState st →
      ((List.range n).foldl (fun st i => putInt (setw 2 (setfill '0' (hex st)))
          (data.getD i 0).val) st).text = st.text ++ (data.take n).flatMap hexPair ∧
      plainState ((List.range n).foldl (fun st i => putInt (setw 2 (setfill '0' (hex st)))
          (data.getD i 0).val) st) := by
  intro n
  induction n with
  | zero => intro st _ h; simpa using h
  | succ n ih =>
    intro st hn h
    obtain ⟨ht, hp⟩ := ih st (by omega) h
    have hlt : n < data.length := by omega
    rw [List.range_succ, List.foldl_append]
    simp only [List.foldl_cons, List.foldl_nil]
    have hstep := putByte_text _ (data.getD n 0) hp
    unfold putByte at hstep
    refine ⟨?_, hstep.2⟩
    rw [hstep.1, ht, List.take_succ, List.getElem?_eq_getElem hlt, List.flatMap_append,
      List.getD_eq_getElem _ _ hlt]
    simp

theorem shiftLeft_text (coutFlags : fmtflags) (text : List Char) (val : md5) :
    (shiftLeft coutFlags (ostream.init text) val).text = text ++ hexText val := by
  have h := (foldl_putByte val.data MD5_DIGEST_LENGTH (ostream.init text)
    (by rw [val.size_eq]) ⟨rfl, rfl, by simp [ostream.init, defaultFlags]⟩).1
  have htake : val.data.take MD5_DIGEST_LENGTH = val.data := by
    rw [← val.size_eq, List.take_length]
  rw [htake] at h
  simp only [shiftLeft, h, hexText]
  rfl

theorem flatMap_pair_getElem? {α β : Type} (f g : α → β) :
    ∀ (l : List α) (i : Nat),
      (l.flatMap fun b => [f b, g b])[2 * i]? = l[i]?.map f ∧
      (l.flatMap fun b => [f b, g b])[2 * i + 1]? = l[i]?.map g := by
  intro l
  induction l with
  | nil => intro i; simp
  | cons a l ih =>
    intro i
    cases i with
    | zero => simp [List.flatMap_cons]
    | succ i =>
      have h1 : 2 * (i + 1) = (2 * i) + 1 + 1 := by omega
      have h2 : 2 * (i + 1) + 1 = (2 * i + 1) + 1 + 1 := by omega
      rw [h1]
      simp only [List.flatMap_cons, List.cons_append, List.nil_append,
        List.getElem?_cons_succ]
      exact ih i

theorem hexNibble_injective : ∀ x y : Fin 16, hexNibble x.val = hexNibble y.val → x = y := by
  decide

theorem hexPair_injective (a b : u8) (h : hexPair a = hexPair b) : a = b := by
  simp only [hexPair, List.cons.injEq, and_true] at h
  have h1 := hexNibble_injective ⟨a.val / 16, by omega⟩ ⟨b.val / 16, by omega⟩ h.1
  have h2 := hexNibble_injective ⟨a.val % 16, by omega⟩ ⟨b.val % 16, by omega⟩ h.2
  simp only [Fin.mk.injEq] at h1 h2
  apply Fin.ext
  omega

theorem hexText_injective (a b : md5) (h : hexText a = hexText b) : a = b := by
  have hdata : a.data = b.data := by
    apply List.ext_getElem?
    intro i
    have ha := (flatMap_pair_getElem? (fun x : u8 => hexNibble (x.val / 16))
      (fun x : u8 => hexNibble (x.val % 16)) a.data i)
    have hb := (flatMap_pair_getElem? (fun x : u8 => hexNibble (x.val / 16))
      (fun x : u8 => hexNibble (x.val % 16)) b.data i)
    have h' : (a.data.flatMap fun x => [hexNibble (x.val / 16), hexNibble (x.val % 16)]) =
        (b.data.flatMap fun x => [hexNibble (x.val / 16), hexNibble (x.val % 16)]) := h
    rw [h'] at ha
    have e1 := ha.1.symm.trans hb.1
    have e2 := ha.2.symm.trans hb.2
    cases hx : a.data[i]? with
    | none =>
      cases hy : b.data[i]? with
      | none => rfl
      | some y => rw [hx, hy] at e1; exact absurd e1 (by simp)
    | some x =>
      cases hy : b.data[i]? with
      | none => rw [hx, hy] at e1; exact absurd e1 (by simp)
      | some y =>
        rw [hx, hy] at e1 e2
        simp only [Option.map_some', Option.some.injEq] at e1 e2
        have : x = y := hexPair_injective x y (by simp [hexPair, e1, e2])
        rw [this]
  cases a; cases b
  simp only at hdata
  subst hdata
  rfl

theorem hexNibble_mem : ∀ x : Fin 16, hexNibble x.val ∈ lowerHex := by
  decide

theorem length_flatMap_hexPair (l : List u8) : (l.flatMap hexPair).length = 2 * l.length := by
  induction l with
  | nil => rfl
  | cons a l ih =>
    rw [List.flatMap_cons, List.length_append, ih]
    simp only [hexPair, List.length_cons, List.length_nil]
    omega

/-- C10: on a stream in its default formatting state, `operator<<` appends for
a digest exactly 32 characters, each one of `0-9a-f`, with nothing between
them: for `i = 0..15` the characters `2i` and `2i+1` are the high and the low
hexadecimal nibble of byte `i`.  Two digests are written as the same text only
if they are equal. -/
theorem shiftLeft_writes_lowercase_hex (coutFlags : fmtflags) (text : List Char) (val : md5) :
    (shiftLeft coutFlags (ostream.init text) val).text = text ++ hexText val ∧
    (hexText val).length = 32 ∧
    (∀ c ∈ hexText val, c ∈ lowerHex) ∧
    (∀ i, i < MD5_DIGEST_LENGTH → ∃ b, val.data[i]? = some b ∧
      (hexText val)[2 * i]? = some (hexNibble (b.val / 16)) ∧
      (hexText val)[2 * i + 1]? = some (hexNibble (b.val % 16))) ∧
    (∀ val', (shiftLeft coutFlags (ostream.init text) val').text =
      (shiftLeft coutFlags (ostream.init text) val).text → val' = val) := by
  refine ⟨shiftLeft_text coutFlags text val, ?_, ?_, ?_, ?_⟩
  · rw [hexText, length_flatMap_hexPair, val.size_eq]
    rfl
  · intro c hc
    obtain ⟨b, _, hb⟩ := List.mem_flatMap.mp hc
    simp only [hexPair, List.mem_cons, List.mem_singleton, List.mem_nil_iff, or_false] at hb
    rcases hb with rfl | rfl
    · exact hexNibble_mem ⟨b.val / 16, by omega⟩
    · exact hexNibble_mem ⟨b.val % 16, by omega⟩
  · intro i hi
    have hlt : i < val.data.length := by rw [val.size_eq]; exact hi
    have h := flatMap_pair_getElem? (fun x : u8 => hexNibble (x.val / 16))
      (fun x : u8 => hexNibble (x.val % 16)) val.data i
    rw [List.getElem?_eq_getElem hlt] at h
    exact ⟨val.data[i], List.getElem?_eq_getElem hlt, h.1, h.2⟩
  · intro val' h
    rw [shiftLeft_text, shiftLeft_text] at h
    exact hexText_injective val' val (List.append_cancel_left h)

/-- C10 at a concrete input: a digest written after the text `md5 `. -/
theorem shiftLeft_writes_lowercase_hex_witness :
    (shiftLeft defaultFlags (ostream.init ['m', 'd', '5', ' ']) (sampleDigest [1, 171, 255])).text =
      "md5 0401abff000000000000000000000000".toList ∧
    (hexText (sampleDigest [1, 171, 255])).length = 32 :=
  ⟨by decide,
    (shiftLeft_writes_lowercase_hex defaultFlags ['m', 'd', '5', ' ']
      (sampleDigest [1, 171, 255])).2.1⟩

end DuplicateFinder
